import Mathlib

/-!
Verification of the Granola cache-synchronization layer of the Maestro
repository (source file src/main/granola.ts, IPC guard in
src/main/ipc/handlers/granola.ts as bundled with the renderer sources).

The TypeScript code is shallowly embedded:
  - JavaScript runtime values produced by JSON.parse are modelled by `JVal`
    (inner document) and `OVal` (outer envelope).  In `OVal` a string
    carries the outcome of parsing its text as JSON, because the only use
    the code makes of the outer cache string is to parse it again.
  - The file system and the clock are an explicit environment `Env`.
    JavaScript date parsing (new Date(v).getTime(), NaN when invalid) is
    the environment field dateParse.
  - The module-level mutable variables cachedState/cachedMtimeMs are the
    explicit state `LoaderState`; loadPromise is modelled in the scheduler
    section as the optional in-flight program counter of a load.
  - Thrown JavaScript exceptions (which surface as rejected promises) are
    Except.error; fsPromises failures are handled where the source handles
    them (try/catch), so they never appear as Except.error.
  - File stat / read / decode / directory-access effects are counted in
    `Counts`.

Modelling notes, kept throughout:
  - Objects built by JSON.parse have unique keys and their key list is in
    enumeration order, so property lookup is plain association-list lookup
    and Object.values maps the value components in list order.
  - JavaScript ToString coercion (jToKey) is exact for strings, integers,
    booleans and null; arrays and plain objects are approximated (claims
    only exercise string ids and string segment texts).
  - Indexing a primitive (non object, non array) with a computed key is
    modelled as undefined; the code only uses such a result behind an
    Array.isArray guard, where every possible primitive-indexing result
    takes the same branch as undefined.
-/

namespace Granola

/-- A JavaScript value as produced by the inner JSON.parse stage.
Strings are plain strings: the inner document is never parsed again. -/
inductive JVal where
  | null
  | bool (b : Bool)
  | num (n : Int)
  | str (s : String)
  | arr (xs : List JVal)
  | obj (kvs : List (String × JVal))

/-- A JavaScript value as produced by the outer JSON.parse stage.
A string carries the outcome of parsing its text as JSON (`none` when the
text is not valid JSON), because the only thing the code does with the
outer cache string is JSON.parse it. -/
inductive OVal where
  | null
  | bool (b : Bool)
  | num (n : Int)
  | str (innerParse : Option JVal)
  | arr (xs : List OVal)
  | obj (kvs : List (String × OVal))

/-- The byte content of the cache file, abstracted by the outcome of the
outer JSON.parse: `notJson` for bytes that are not valid JSON. -/
inductive FileContent where
  | notJson
  | json (outer : OVal)

/-- JavaScript truthiness of a defined value. -/
def jTruthy : JVal → Bool
  | .null => false
  | .bool b => b
  | .num n => n != 0
  | .str s => !s.isEmpty
  | .arr _ => true
  | .obj _ => true

/-- JavaScript truthiness where `none` is undefined. -/
def jTruthyOpt : Option JVal → Bool
  | none => false
  | some v => jTruthy v

/-- Property access `v.k` on an inner value: throws (TypeError) on null,
is undefined on primitives and arrays (no own property named by our keys),
and looks the key up on objects. -/
def jGetProp : JVal → String → Except Unit (Option JVal)
  | .null, _ => .error ()
  | .obj kvs, k => .ok (kvs.lookup k)
  | _, _ => .ok none

/-- Property access `v.k` on an outer value, same semantics. -/
def oGetProp : OVal → String → Except Unit (Option OVal)
  | .null, _ => .error ()
  | .obj kvs, k => .ok (kvs.lookup k)
  | _, _ => .ok none

/-- JavaScript ToString coercion used for computed property keys and for
Array.prototype.join elements.  Exact on strings, integers, booleans and
null; arrays and objects are approximated (see header notes). -/
def jToKey : JVal → String
  | .str s => s
  | .num n => toString n
  | .bool b => if b then "true" else "false"
  | .null => "null"
  | .arr _ => ""
  | .obj _ => "[object Object]"

/-- The property key a raw document id coerces to; missing is undefined. -/
def jKeyOfOpt : Option JVal → String
  | some v => jToKey v
  | none => "undefined"

/-- `toNat?` accepts leading zeros; array indexing only hits canonical
numeric strings, so require the round trip. -/
def canonicalNat (k : String) : Option Nat :=
  match k.toNat? with
  | some i => if toString i == k then some i else none
  | none => none

/-- Computed member access `v[k]` on a non-null base: association lookup on
objects, canonical numeric indices and length on arrays, undefined
otherwise (primitive cases converge behind the Array.isArray guards where
they are used). -/
def jIndex : JVal → String → Option JVal
  | .obj kvs, k => kvs.lookup k
  | .arr xs, k =>
      if k == "length" then some (.num xs.length)
      else
        match canonicalNat k with
        | some i => xs.get? i
        | none => none
  | _, _ => none

/-- The JavaScript expression `x || d` for a possibly undefined x. -/
def jOrElse (v : Option JVal) (d : JVal) : JVal :=
  match v with
  | some x => if jTruthy x then x else d
  | none => d

/-- `state.documents || {}` and `state.transcripts || {}`. -/
def jOrEmptyObj (v : Option JVal) : JVal :=
  jOrElse v (.obj [])

/-- Object.values: value components of an object in enumeration order, the
elements of an array, the one-character strings of a string, and empty for
other primitives. -/
def objectValues : JVal → List JVal
  | .obj kvs => kvs.map (fun kv => kv.2)
  | .arr xs => xs
  | .str s => s.data.map (fun c => .str (String.singleton c))
  | _ => []

/-- Effectful map in source order; an exception aborts the whole loop. -/
def exMap (f : α → Except Unit β) : List α → Except Unit (List β)
  | [] => .ok []
  | x :: xs =>
    match f x with
    | .error e => .error e
    | .ok y =>
      match exMap f xs with
      | .error e => .error e
      | .ok ys => .ok (y :: ys)

/-- Effectful filter in source order; an exception aborts the whole loop. -/
def exFilter (p : α → Except Unit Bool) : List α → Except Unit (List α)
  | [] => .ok []
  | x :: xs =>
    match p x with
    | .error e => .error e
    | .ok b =>
      match exFilter p xs with
      | .error e => .error e
      | .ok ys => .ok (if b then x :: ys else ys)

/-- The closed error taxonomy GranolaErrorType restricted to the cache
variants the local-cache module produces. -/
inductive GErr where
  | not_installed
  | cache_not_found
  | cache_parse_error

/-- Result of one load: the decoded state with its age, or an error.
Mirrors LoadCacheResult in the source. -/
inductive LoadCacheResult where
  | ok (state : JVal) (ageMs : Int)
  | error (e : GErr)

/-- The module-level variables cachedState and cachedMtimeMs. -/
structure LoaderState where
  cachedState : Option JVal
  cachedMtimeMs : Int

/-- Counters for the externally observable file-system work of a call. -/
structure Counts where
  accesses : Nat
  stats : Nat
  reads : Nat
  decodes : Nat

/-- The world the module runs against: the Granola application-data
directory, the cache file (modification time and content), the clock, and
the platform date parser (new Date(v).getTime(), `none` for NaN). -/
structure Env where
  granolaDirExists : Bool
  cacheFile : Option (Int × FileContent)
  now : Int
  dateParse : JVal → Option Int

/-- The in-memory freshness test on line 79 of granola.ts:
`cachedState && stat.mtimeMs === cachedMtimeMs`. -/
def freshHit (st : LoaderState) (mtime : Int) : Bool :=
  match st.cachedState with
  | some s => jTruthy s && mtime == st.cachedMtimeMs
  | none => false

/-- Lines 83-105 of granola.ts: read the file and run the double decode.
JSON.parse failures and property access on null throw into the catch block
which clears the snapshot; the two explicit shape checks (cache field not
a string, state field falsy) return cache_parse_error without touching the
snapshot. -/
def decodeContent (content : FileContent) (mtime ageMs : Int)
    (st : LoaderState) : LoadCacheResult × LoaderState :=
  match content with
  | .notJson => (.error .cache_parse_error, ⟨none, 0⟩)
  | .json outer =>
    match oGetProp outer "cache" with
    | .error _ => (.error .cache_parse_error, ⟨none, 0⟩)
    | .ok cachev =>
      match cachev with
      | some (.str innerParse) =>
        match innerParse with
        | none => (.error .cache_parse_error, ⟨none, 0⟩)
        | some inner =>
          match jGetProp inner "state" with
          | .error _ => (.error .cache_parse_error, ⟨none, 0⟩)
          | .ok statev =>
            match statev with
            | some s =>
              if jTruthy s then (.ok s ageMs, ⟨some s, mtime⟩)
              else (.error .cache_parse_error, st)
            | none => (.error .cache_parse_error, st)
      | _ => (.error .cache_parse_error, st)

/-- Segment of loadCacheImpl that runs when the directory-existence check
settles: decide not_installed or continue. -/
def segAccess (E : Env) (st : LoaderState) :
    Option (LoadCacheResult × LoaderState) :=
  if E.granolaDirExists then none else some (.error .not_installed, st)

/-- Segment of loadCacheImpl that runs when the stat settles: missing file
clears the snapshot and fails, a fresh snapshot is served, otherwise
continue to the read. -/
def segStat (E : Env) (st : LoaderState) :
    Option (LoadCacheResult × LoaderState) :=
  match E.cacheFile with
  | none => some (.error .cache_not_found, ⟨none, 0⟩)
  | some (mtime, _) =>
    match st.cachedState with
    | some s =>
      if jTruthy s && mtime == st.cachedMtimeMs then
        some (.ok s (E.now - mtime), st)
      else none
    | none => none

/-- Segment of loadCacheImpl that runs when the file read settles: the
synchronous double decode. -/
def segRead (E : Env) (st : LoaderState) : LoadCacheResult × LoaderState :=
  match E.cacheFile with
  | some (mtime, content) => decodeContent content mtime (E.now - mtime) st
  | none => (.error .cache_not_found, ⟨none, 0⟩)

/-- loadCacheImpl (granola.ts lines 59-106) as one sequential call,
together with the file-system work it performs.  This is also the
behaviour of loadCache when no other call is in flight; the
single-flight wrapper is modelled by the scheduler further down. -/
def loadCacheImpl (E : Env) (st : LoaderState) :
    LoadCacheResult × LoaderState × Counts :=
  match segAccess E st with
  | some (r, st2) => (r, st2, ⟨1, 0, 0, 0⟩)
  | none =>
    match segStat E st with
    | some (r, st2) => (r, st2, ⟨1, 1, 0, 0⟩)
    | none =>
      match segRead E st with
      | (r, st2) => (r, st2, ⟨1, 1, 1, 1⟩)

/-- parseEpoch (granola.ts lines 53-57): falsy input or an unparseable
date falls back to Date.now(). -/
def parseEpoch (E : Env) (value : Option JVal) : Int :=
  if jTruthyOpt value then
    match value with
    | some v =>
      match E.dateParse v with
      | some ms => ms
      | none => E.now
    | none => E.now
  else E.now

/-- A normalized document as built by getRecentMeetings.  id holds the raw
record's id value (undefined only before filtering). -/
structure GDoc where
  id : Option JVal
  title : JVal
  createdAt : Int
  participants : List JVal
  hasTranscript : Bool

/-- The filter callback on line 129: `doc.id && !doc.deleted_at`.
Evaluating doc.id throws on a null record; when doc.id is falsy the
deleted_at access is short-circuited away. -/
def docFilter (doc : JVal) : Except Unit Bool :=
  match jGetProp doc "id" with
  | .error _ => .error ()
  | .ok idv =>
    if jTruthyOpt idv then
      match jGetProp doc "deleted_at" with
      | .error _ => .error ()
      | .ok del => .ok (!jTruthyOpt del)
    else .ok false

/-- `p.name || p.email || 'Unknown'`; the first access throws on a null
person entry. -/
def personDisplay (p : JVal) : Except Unit JVal :=
  match jGetProp p "name" with
  | .error _ => .error ()
  | .ok namev =>
    match jGetProp p "email" with
    | .error _ => .error ()
    | .ok emailv => .ok (jOrElse namev (jOrElse emailv (.str "Unknown")))

/-- `(doc.people || []).map(...)`: falsy people is an empty list; a truthy
non-array has no callable map method and throws. -/
def mapPeople (peoplev : Option JVal) : Except Unit (List JVal) :=
  if jTruthyOpt peoplev then
    match peoplev with
    | some (.arr xs) => exMap personDisplay xs
    | _ => .error ()
  else .ok []

/-- `Array.isArray(transcripts[doc.id]) && transcripts[doc.id].length > 0`. -/
def hasTranscriptFor (transcripts : JVal) (idv : Option JVal) : Bool :=
  match jIndex transcripts (jKeyOfOpt idv) with
  | some (.arr xs) => xs.length > 0
  | _ => false

/-- The map callback on lines 130-136 building one normalized document. -/
def normDoc (E : Env) (transcripts : JVal) (doc : JVal) :
    Except Unit GDoc :=
  match jGetProp doc "id" with
  | .error _ => .error ()
  | .ok idv =>
    match jGetProp doc "title" with
    | .error _ => .error ()
    | .ok titlev =>
      match jGetProp doc "created_at" with
      | .error _ => .error ()
      | .ok createdv =>
        match jGetProp doc "people" with
        | .error _ => .error ()
        | .ok peoplev =>
          match mapPeople peoplev with
          | .error _ => .error ()
          | .ok parts =>
            .ok { id := idv
                  title := jOrElse titlev (.str "Untitled Meeting")
                  createdAt := parseEpoch E createdv
                  participants := parts
                  hasTranscript := hasTranscriptFor transcripts idv }

/-- The stable-sort comparator on line 137: `b.createdAt - a.createdAt`.
a may precede b exactly when the comparator is non-positive. -/
def byCreatedDesc (a b : GDoc) : Bool :=
  decide (b.createdAt ≤ a.createdAt)

/-- Insert x into a sorted list, after every element that strictly
precedes it and before every element tied with it. -/
def insertBy (le : α → α → Bool) (x : α) : List α → List α
  | [] => [x]
  | y :: ys => if le y x && !le x y then y :: insertBy le x ys else x :: y :: ys

/-- The stable sort Array.prototype.sort performs (stable since ES2019).
For a comparator inducing a total preorder every stable sort produces the
same list, so this structurally recursive insertion sort is the model. -/
def stableSortBy (le : α → α → Bool) : List α → List α
  | [] => []
  | x :: xs => insertBy le x (stableSortBy le xs)

/-- A query outcome: success with data and cache age, or a typed failure.
Mirrors GranolaResult in shared/granola-types. -/
inductive GranolaResult (α : Type) where
  | success (data : α) (cacheAge : Int)
  | failure (error : GErr)

/-- Lines 124-140: normalize an already loaded state.  Kept separate from
the loader call so theorems can speak about the pure part. -/
def getRecentMeetingsFrom (E : Env) (state : JVal) (age : Int)
    (limit : Nat) : Except Unit (GranolaResult (List GDoc)) :=
  match jGetProp state "documents" with
  | .error _ => .error ()
  | .ok docsv =>
    match jGetProp state "transcripts" with
    | .error _ => .error ()
    | .ok trv =>
      let docs := jOrEmptyObj docsv
      let transcripts := jOrEmptyObj trv
      match exFilter docFilter (objectValues docs) with
      | .error _ => .error ()
      | .ok kept =>
        match exMap (normDoc E transcripts) kept with
        | .error _ => .error ()
        | .ok mapped =>
          .ok (.success ((stableSortBy byCreatedDesc mapped).take limit) age)

/-- getRecentMeetings (granola.ts lines 118-141).  An Except.error result
is a thrown exception escaping the function as a rejected promise. -/
def getRecentMeetings (E : Env) (st : LoaderState) (limit : Nat) :
    Except Unit (GranolaResult (List GDoc)) × LoaderState × Counts :=
  match loadCacheImpl E st with
  | (.error e, st2, c) => (.ok (.failure e), st2, c)
  | (.ok state age, st2, c) => (getRecentMeetingsFrom E state age limit, st2, c)

/-- A transcript as returned to callers. -/
structure GTranscript where
  documentId : String
  plainText : String

/-- `s.text || ''` for one raw segment; throws on a null segment. -/
def segText (s : JVal) : Except Unit JVal :=
  match jGetProp s "text" with
  | .error _ => .error ()
  | .ok tv => .ok (jOrElse tv (.str ""))

/-- Lines 149-165: extract one transcript from an already loaded state. -/
def getTranscriptFrom (state : JVal) (age : Int) (documentId : String) :
    Except Unit (GranolaResult GTranscript) :=
  match jGetProp state "transcripts" with
  | .error _ => .error ()
  | .ok trv =>
    let segments : Option JVal :=
      match trv with
      | none => none
      | some .null => none
      | some t => jIndex t documentId
    match segments with
    | some (.arr segs) =>
      if segs.length == 0 then .ok (.failure .cache_not_found)
      else
        match exMap segText segs with
        | .error _ => .error ()
        | .ok texts =>
          .ok (.success
            ⟨documentId,
             String.intercalate "\n" ((texts.filter jTruthy).map jToKey)⟩
            age)
    | _ => .ok (.failure .cache_not_found)

/-- getTranscript (granola.ts lines 143-166). -/
def getTranscript (E : Env) (st : LoaderState) (documentId : String) :
    Except Unit (GranolaResult GTranscript) × LoaderState × Counts :=
  match loadCacheImpl E st with
  | (.error e, st2, c) => (.ok (.failure e), st2, c)
  | (.ok state age, st2, c) => (getTranscriptFrom state age documentId, st2, c)

/-- A character String.prototype.trim removes (the common subset). -/
def jsWhitespace (c : Char) : Bool :=
  c == ' ' || c == '\t' || c == '\n' || c == '\r'

/-- The JavaScript test `!documentId.trim()`: the trimmed string is empty
exactly when every character is whitespace. -/
def trimIsEmpty (s : String) : Bool :=
  s.data.all jsWhitespace

/-- The guard in the granola:get-transcript IPC handler: a non-string or
whitespace-only documentId is answered cache_not_found before the query
function (and hence the loader) is ever invoked. -/
def granolaGetTranscriptHandler (E : Env) (st : LoaderState)
    (arg : Option JVal) :
    Except Unit (GranolaResult GTranscript) × LoaderState × Counts :=
  match arg with
  | some (.str s) =>
    if trimIsEmpty s then (.ok (.failure .cache_not_found), st, ⟨0, 0, 0, 0⟩)
    else getTranscript E st s
  | _ => (.ok (.failure .cache_not_found), st, ⟨0, 0, 0, 0⟩)

end Granola

namespace Granola

/-- The state of one caller of loadCache: not yet called, awaiting the
shared in-flight promise, or settled with its result. -/
inductive ProcState where
  | start
  | waiting
  | done (r : LoadCacheResult)

/-- The suspension point the in-flight loadCacheImpl currently awaits:
the directory-existence check, the stat, or the file read.  `loadPromise`
being null is the absence of this value. -/
inductive FlightPC where
  | atAccess
  | atStat
  | atRead

/-- The whole process: module state, the optional in-flight load, the
callers, and the accumulated file-system work. -/
structure Sys where
  loader : LoaderState
  flight : Option FlightPC
  procs : List ProcState
  counts : Counts

/-- One scheduler action: caller i invokes loadCache (its synchronous
prefix runs: it either joins the in-flight load or installs a new one),
or the pending I/O of the in-flight load completes and the following
synchronous code runs up to the next await or to settlement. -/
inductive Action where
  | call (i : Nat)
  | flightStep

/-- Settlement: the shared promise resolves, every awaiting caller
receives the same result. -/
def settleProcs (procs : List ProcState) (r : LoadCacheResult) :
    List ProcState :=
  procs.map fun p =>
    match p with
    | .waiting => .done r
    | p => p

/-- Small-step semantics of the event loop for this module.  `none` means
the action is not enabled.  A settling step atomically records the result,
clears the shared handle (the leader's finally block) and resumes the
waiters: between a promise settling and those microtasks running, no other
code of this module can be scheduled. -/
def step (E : Env) (sys : Sys) : Action → Option Sys
  | .call i =>
    match sys.procs.get? i with
    | some .start =>
      match sys.flight with
      | some _ => some { sys with procs := sys.procs.set i .waiting }
      | none =>
        some { sys with
                procs := sys.procs.set i .waiting
                flight := some .atAccess }
    | _ => none
  | .flightStep =>
    match sys.flight with
    | none => none
    | some .atAccess =>
      let c := { sys.counts with accesses := sys.counts.accesses + 1 }
      match segAccess E sys.loader with
      | some (r, st2) =>
        some { loader := st2, flight := none
               procs := settleProcs sys.procs r, counts := c }
      | none => some { sys with flight := some .atStat, counts := c }
    | some .atStat =>
      let c := { sys.counts with stats := sys.counts.stats + 1 }
      match segStat E sys.loader with
      | some (r, st2) =>
        some { loader := st2, flight := none
               procs := settleProcs sys.procs r, counts := c }
      | none => some { sys with flight := some .atRead, counts := c }
    | some .atRead =>
      let c := { sys.counts with
                  reads := sys.counts.reads + 1
                  decodes := sys.counts.decodes + 1 }
      match segRead E sys.loader with
      | (r, st2) =>
        some { loader := st2, flight := none
               procs := settleProcs sys.procs r, counts := c }

/-- Run a schedule; a schedule containing a non-enabled action is stuck. -/
def run (E : Env) : Sys → List Action → Option Sys
  | sys, [] => some sys
  | sys, a :: rest =>
    match step E sys a with
    | some sys2 => run E sys2 rest
    | none => none

/-- n callers about to invoke loadCache, nothing in flight, no work done. -/
def initSys (st : LoaderState) (n : Nat) : Sys :=
  ⟨st, none, List.replicate n .start, ⟨0, 0, 0, 0⟩⟩

/-- No caller has settled yet. -/
def noDone (sys : Sys) : Bool :=
  sys.procs.all fun p =>
    match p with
    | .done _ => false
    | _ => true

/-- A caller has settled. -/
def isDone : ProcState → Bool
  | .done _ => true
  | _ => false

/-- The schedule is a concurrent batch: every call is issued while no
prior invocation has settled (and the schedule is never stuck). -/
def batchOK (E : Env) : Sys → List Action → Bool
  | _, [] => true
  | sys, a :: rest =>
    (match a with
     | .call _ => noDone sys
     | .flightStep => true) &&
    (match step E sys a with
     | some sys2 => batchOK E sys2 rest
     | none => false)

end Granola

namespace Granola

/-! Concrete instances used by witnesses and counterexamples. -/

/-- A date parser that parses nothing (every string is an invalid date). -/
def noDate : JVal → Option Int := fun _ => none

/-- An inner state with empty documents and transcripts maps. -/
def stateEmpty : JVal :=
  .obj [("documents", .obj []), ("transcripts", .obj [])]

/-- A well-formed double-encoded cache file around a given inner state. -/
def mkContent (state : JVal) : FileContent :=
  .json (.obj [("cache", .str (some (.obj [("state", state)])))])

/-- Environment with a cache file older than now and a parser for two
fixed timestamps. -/
def dateTwo : JVal → Option Int := fun v =>
  match v with
  | .str "2024-01-01T00:00:00Z" => some 10
  | .str "2024-02-01T00:00:00Z" => some 20
  | _ => none

/-- Environment for the cache-hit witness. -/
def envHit : Env := ⟨true, some (5, mkContent stateEmpty), 100, noDate⟩

/-- Loader state holding a snapshot recorded at the file's current
modification time. -/
def stHit : LoaderState := ⟨some stateEmpty, 5⟩

/-- The file was rewritten (mtime 6) with an envelope whose cache field is
a number. -/
def envShapeErr : Env :=
  ⟨true, some (6, .json (.obj [("cache", .num 123)])), 100, noDate⟩

/-- The Granola application-data directory is missing. -/
def envNoDir : Env := ⟨false, some (5, mkContent stateEmpty), 100, noDate⟩

/-- The inner document's state field is the number 7: truthy but not an
object. -/
def envStateNum : Env := ⟨true, some (7, mkContent (.num 7)), 97, noDate⟩

/-- A documents map containing a null record. -/
def stateNullDoc : JVal := .obj [("documents", .obj [("a", .null)])]

/-- Environment whose cache decodes to a null document record. -/
def envNullDoc : Env := ⟨true, some (8, mkContent stateNullDoc), 100, noDate⟩

/-- A transcripts map whose segment list contains a null segment. -/
def stateNullSeg : JVal :=
  .obj [("transcripts", .obj [("a", .arr [.null])])]

/-- Environment whose cache decodes to a null transcript segment. -/
def envNullSeg : Env := ⟨true, some (8, mkContent stateNullSeg), 100, noDate⟩

/-- Two live documents with parseable timestamps, one transcript. -/
def stateTwoDocs : JVal :=
  .obj [("documents", .obj
          [("a", .obj [("id", .str "a"),
                       ("created_at", .str "2024-01-01T00:00:00Z")]),
           ("b", .obj [("id", .str "b"),
                       ("created_at", .str "2024-02-01T00:00:00Z")])]),
        ("transcripts", .obj
          [("a", .arr [.obj [("text", .str "Hello")]])])]

/-- Environment for the ordering witness. -/
def envTwoDocs : Env := ⟨true, some (5, mkContent stateTwoDocs), 100, dateTwo⟩

/-- A document whose delete marker is present, non-null and empty. -/
def stateEmptyDeleted : JVal :=
  .obj [("documents", .obj
          [("a", .obj [("id", .str "a"), ("deleted_at", .str "")])])]

/-- Environment for the soft-delete counterexample. -/
def envEmptyDeleted : Env :=
  ⟨true, some (5, mkContent stateEmptyDeleted), 100, noDate⟩

/-- A document with no created_at field at all. -/
def stateNoCreated : JVal :=
  .obj [("documents", .obj [("a", .obj [("id", .str "a")])])]

/-- First call's environment: clock at 1000. -/
def envNine1 : Env := ⟨true, some (10, mkContent stateNoCreated), 1000, noDate⟩

/-- Second call's environment: same file, clock at 2000. -/
def envNine2 : Env := ⟨true, some (10, mkContent stateNoCreated), 2000, noDate⟩

/-- A date parser defined exactly on one timestamp string. -/
def dateOne : JVal → Option Int := fun v =>
  match v with
  | .str "2024-01-01T00:00:00Z" => some 77
  | _ => none

/-- A document whose created_at parses under dateOne. -/
def stateCreated : JVal :=
  .obj [("documents", .obj
          [("a", .obj [("id", .str "a"),
                       ("created_at", .str "2024-01-01T00:00:00Z")])])]

/-- First call's environment for the idempotence witness. -/
def envIdem1 : Env := ⟨true, some (10, mkContent stateCreated), 1000, dateOne⟩

/-- Second call's environment: same file and parser, clock at 2000. -/
def envIdem2 : Env := ⟨true, some (10, mkContent stateCreated), 2000, dateOne⟩

/-- A soft-deleted document that nevertheless owns a transcript. -/
def stateDeletedWithTranscript : JVal :=
  .obj [("documents", .obj
          [("a", .obj [("id", .str "a"),
                       ("deleted_at", .str "2024-03-01T00:00:00Z")])]),
        ("transcripts", .obj
          [("a", .arr [.obj [("text", .str "Hello")],
                       .obj [("text", .str "")],
                       .obj [("text", .str "World")]])])]

/-- Environment for the deleted-document transcript witness. -/
def envDeleted : Env :=
  ⟨true, some (5, mkContent stateDeletedWithTranscript), 100, noDate⟩

/-- The value `s.text || ''` takes on a non-null segment (total form of
segText used to state what the extractor joins). -/
def segTextValue (s : JVal) : JVal :=
  match jGetProp s "text" with
  | .ok tv => jOrElse tv (.str "")
  | .error _ => .str ""

/-- The plain text the extractor produces from a segment list: the truthy
text values, coerced to strings, joined with newlines. -/
def joinSegTexts (segs : List JVal) : String :=
  String.intercalate "\n" (((segs.map segTextValue).filter jTruthy).map jToKey)

/-- The batch condition on one action: a call may only be issued while no
caller has settled. -/
def callGuard (sys : Sys) : Action → Bool
  | .call _ => noDone sys
  | .flightStep => true

/-- Phase invariant of the single-flight discipline: no load has ever
settled and none is in flight (everyone still at start, nothing counted);
or a load is in flight at one of its three suspension points, with at
least one caller awaiting it, the module state untouched and exactly the
completed I/O counted; or the one load has settled, every caller that
invoked loadCache holds its result, and state, counts and handle are
those of one sequential loadCacheImpl call. -/
def Inv (E : Env) (st : LoaderState) (n : Nat) (sys : Sys) : Prop :=
  sys.procs.length = n ∧
  ((sys.flight = none ∧ sys.loader = st ∧ sys.counts = ⟨0, 0, 0, 0⟩ ∧
      ∀ p ∈ sys.procs, p = ProcState.start)
   ∨ (sys.flight = some .atAccess ∧ sys.loader = st ∧
      sys.counts = ⟨0, 0, 0, 0⟩ ∧
      (∀ p ∈ sys.procs, p = ProcState.start ∨ p = ProcState.waiting) ∧
      ProcState.waiting ∈ sys.procs)
   ∨ (sys.flight = some .atStat ∧ sys.loader = st ∧
      sys.counts = ⟨1, 0, 0, 0⟩ ∧ segAccess E st = none ∧
      (∀ p ∈ sys.procs, p = ProcState.start ∨ p = ProcState.waiting) ∧
      ProcState.waiting ∈ sys.procs)
   ∨ (sys.flight = some .atRead ∧ sys.loader = st ∧
      sys.counts = ⟨1, 1, 0, 0⟩ ∧ segAccess E st = none ∧
      segStat E st = none ∧
      (∀ p ∈ sys.procs, p = ProcState.start ∨ p = ProcState.waiting) ∧
      ProcState.waiting ∈ sys.procs)
   ∨ (sys.flight = none ∧ sys.loader = (loadCacheImpl E st).2.1 ∧
      sys.counts = (loadCacheImpl E st).2.2 ∧
      (∀ p ∈ sys.procs,
        p = ProcState.start ∨ p = ProcState.done (loadCacheImpl E st).1) ∧
      ProcState.done (loadCacheImpl E st).1 ∈ sys.procs))

/-! Helper lemmas about the loader. -/

/-- The directory-existence segment succeeds when the directory exists. -/
theorem segAccess_exists (E : Env) (st : LoaderState)
    (hdir : E.granolaDirExists = true) : segAccess E st = none := by
  unfold segAccess
  rw [hdir]
  rfl

/-- The stat segment neither fails nor serves when the file exists and the
held snapshot is not fresh for its modification time. -/
theorem segStat_miss (E : Env) (st : LoaderState) (m : Int)
    (content : FileContent)
    (hfile : E.cacheFile = some (m, content))
    (hmiss : freshHit st m = false) : segStat E st = none := by
  unfold segStat
  rw [hfile]
  unfold freshHit at hmiss
  cases h : st.cachedState with
  | none => rfl
  | some s =>
    rw [h] at hmiss
    have hm : (jTruthy s && m == st.cachedMtimeMs) = false := hmiss
    simp [hm]

/-- When the directory exists, the file exists and the snapshot is not
fresh, a load is an access, a stat, a read and a decode. -/
theorem loadCacheImpl_read (E : Env) (st : LoaderState) (m : Int)
    (content : FileContent)
    (hdir : E.granolaDirExists = true)
    (hfile : E.cacheFile = some (m, content))
    (hmiss : freshHit st m = false) :
    loadCacheImpl E st =
      ((decodeContent content m (E.now - m) st).1,
       (decodeContent content m (E.now - m) st).2, ⟨1, 1, 1, 1⟩) := by
  unfold loadCacheImpl
  rw [segAccess_exists E st hdir, segStat_miss E st m content hfile hmiss]
  unfold segRead
  rw [hfile]

end Granola

namespace Granola

/-- Helper: a held truthy snapshot whose recorded modification time equals
the file's current one is served without a read. -/
theorem loadCacheImpl_hit (E : Env) (st : LoaderState) (s : JVal)
    (m : Int) (content : FileContent)
    (hdir : E.granolaDirExists = true)
    (hfile : E.cacheFile = some (m, content))
    (hheld : st.cachedState = some s)
    (htruthy : jTruthy s = true)
    (hmtime : st.cachedMtimeMs = m) :
    loadCacheImpl E st = (.ok s (E.now - m), st, ⟨1, 1, 0, 0⟩) := by
  unfold loadCacheImpl
  rw [segAccess_exists E st hdir]
  unfold segStat
  rw [hfile, hheld, hmtime]
  simp [htruthy]

/-- C2: cache-hit freshness.  When a (necessarily truthy) snapshot is held
and its recorded modification time equals the file's current modification
time, loadCache returns the held snapshot with age now minus the file's
modification time, performing no file read and no decode, and leaves the
module state unchanged. -/
theorem cacheHitServesHeld (E : Env) (st : LoaderState) (s : JVal)
    (m : Int) (content : FileContent)
    (hdir : E.granolaDirExists = true)
    (hfile : E.cacheFile = some (m, content))
    (hheld : st.cachedState = some s)
    (htruthy : jTruthy s = true)
    (hmtime : st.cachedMtimeMs = m) :
    loadCacheImpl E st = (.ok s (E.now - m), st, ⟨1, 1, 0, 0⟩) :=
  loadCacheImpl_hit E st s m content hdir hfile hheld htruthy hmtime

/-- Witness for C2: a concrete held snapshot served without a read. -/
theorem cacheHitServesHeld_witness :
    loadCacheImpl envHit stHit = (.ok stateEmpty 95, stHit, ⟨1, 1, 0, 0⟩) := by
  exact cacheHitServesHeld envHit stHit stateEmpty 5 (mkContent stateEmpty)
    rfl rfl rfl rfl rfl

/-- C3 counterexample: a loadCache call that returns cache_parse_error and
does not clear the held snapshot.  The file was rewritten (modification
time 6, snapshot recorded at 5) with the envelope whose cache field is the
number 123: the shape check fails before the catch block, so the previous
snapshot survives, contradicting the claim that a cache_parse_error call
clears the held snapshot. -/
theorem snapshotEffects_cex :
    (loadCacheImpl envShapeErr ⟨some stateEmpty, 5⟩).1
      = .error .cache_parse_error
    ∧ (loadCacheImpl envShapeErr ⟨some stateEmpty, 5⟩).2.1
      = ⟨some stateEmpty, 5⟩
    ∧ (loadCacheImpl envShapeErr ⟨some stateEmpty, 5⟩).2.1.cachedState
      ≠ none := by
  refine ⟨rfl, rfl, ?_⟩
  intro h
  have h2 : (some stateEmpty : Option JVal) = none := h
  exact Option.noConfusion h2

/-- C3 (amended): a not_installed failure leaves the snapshot untouched; a
cache_not_found failure clears it; a cache_parse_error failure clears it
exactly when it comes from a thrown exception (unparseable outer JSON,
null envelope, unparseable inner string, null inner document), while the
two explicit shape checks (cache field missing or not a string, state
field missing or falsy) return cache_parse_error leaving the snapshot in
place. -/
theorem snapshotEffectsAmended (E : Env) (st : LoaderState) :
    (E.granolaDirExists = false →
      loadCacheImpl E st = (.error .not_installed, st, ⟨1, 0, 0, 0⟩))
    ∧ (E.granolaDirExists = true → E.cacheFile = none →
      loadCacheImpl E st = (.error .cache_not_found, ⟨none, 0⟩, ⟨1, 1, 0, 0⟩))
    ∧ (∀ m content, E.granolaDirExists = true →
        E.cacheFile = some (m, content) → freshHit st m = false →
        ((content = .notJson →
            loadCacheImpl E st
              = (.error .cache_parse_error, ⟨none, 0⟩, ⟨1, 1, 1, 1⟩))
         ∧ (∀ outer, content = .json outer →
              oGetProp outer "cache" = .error () →
            loadCacheImpl E st
              = (.error .cache_parse_error, ⟨none, 0⟩, ⟨1, 1, 1, 1⟩))
         ∧ (∀ outer, content = .json outer →
              oGetProp outer "cache" = .ok none →
            loadCacheImpl E st
              = (.error .cache_parse_error, st, ⟨1, 1, 1, 1⟩))
         ∧ (∀ outer v, content = .json outer →
              oGetProp outer "cache" = .ok (some v) → (∀ ip, v ≠ .str ip) →
            loadCacheImpl E st
              = (.error .cache_parse_error, st, ⟨1, 1, 1, 1⟩))
         ∧ (∀ outer, content = .json outer →
              oGetProp outer "cache" = .ok (some (.str none)) →
            loadCacheImpl E st
              = (.error .cache_parse_error, ⟨none, 0⟩, ⟨1, 1, 1, 1⟩))
         ∧ (∀ outer inner, content = .json outer →
              oGetProp outer "cache" = .ok (some (.str (some inner))) →
              jGetProp inner "state" = .error () →
            loadCacheImpl E st
              = (.error .cache_parse_error, ⟨none, 0⟩, ⟨1, 1, 1, 1⟩))
         ∧ (∀ outer inner sv, content = .json outer →
              oGetProp outer "cache" = .ok (some (.str (some inner))) →
              jGetProp inner "state" = .ok sv → jTruthyOpt sv = false →
            loadCacheImpl E st
              = (.error .cache_parse_error, st, ⟨1, 1, 1, 1⟩)))) := by
  refine ⟨?_, ?_, ?_⟩
  · intro h
    unfold loadCacheImpl segAccess
    rw [h]
    rfl
  · intro hdir hf
    unfold loadCacheImpl
    rw [segAccess_exists E st hdir]
    unfold segStat
    rw [hf]
  · intro m content hdir hfile hmiss
    have hr := loadCacheImpl_read E st m content hdir hfile hmiss
    refine ⟨?_, ?_, ?_, ?_, ?_, ?_, ?_⟩
    · intro hc
      subst hc
      rw [hr]
      rfl
    · intro outer hc hcache
      subst hc
      rw [hr]
      simp [decodeContent, hcache]
    · intro outer hc hcache
      subst hc
      rw [hr]
      simp [decodeContent, hcache]
    · intro outer v hc hcache hnotstr
      subst hc
      rw [hr]
      cases v with
      | str ip => exact absurd rfl (hnotstr ip)
      | null => simp [decodeContent, hcache]
      | bool b => simp [decodeContent, hcache]
      | num n => simp [decodeContent, hcache]
      | arr xs => simp [decodeContent, hcache]
      | obj kvs => simp [decodeContent, hcache]
    · intro outer hc hcache
      subst hc
      rw [hr]
      simp [decodeContent, hcache]
    · intro outer inner hc hcache hstate
      subst hc
      rw [hr]
      simp [decodeContent, hcache, hstate]
    · intro outer inner sv hc hcache hstate hfalsy
      subst hc
      rw [hr]
      cases sv with
      | none => simp [decodeContent, hcache, hstate]
      | some s =>
        have hs : jTruthy s = false := hfalsy
        simp [decodeContent, hcache, hstate, hs]

/-- Witness for C3 (amended): a missing vendor directory at a concrete
held snapshot leaves the snapshot untouched. -/
theorem snapshotEffectsAmended_witness :
    loadCacheImpl envNoDir ⟨some stateEmpty, 5⟩
      = (.error .not_installed, ⟨some stateEmpty, 5⟩, ⟨1, 0, 0, 0⟩) :=
  (snapshotEffectsAmended envNoDir ⟨some stateEmpty, 5⟩).1 rfl

end Granola

namespace Granola

/-- C4 counterexample: the inner document's state field holds the number
7 — not an object — yet the load succeeds with that value instead of
returning cache_parse_error: the code only checks the state field for
truthiness, never that it is an object. -/
theorem decodeStrictness_cex :
    (loadCacheImpl envStateNum ⟨none, 0⟩).1 = .ok (.num 7) 90
    ∧ (loadCacheImpl envStateNum ⟨none, 0⟩).1 ≠ .error .cache_parse_error := by
  constructor
  · rfl
  · intro h
    have h2 : LoadCacheResult.ok (.num 7) 90 = .error .cache_parse_error := h
    exact LoadCacheResult.noConfusion h2

/-- C4 (amended): decoding is all-or-nothing per read, with the state
check weakened from "state is an object" to "state is truthy": an
unparseable outer document, a null envelope, a missing or non-string
cache field (in particular the envelope with cache = 123), an unparseable
inner string, a null inner document, and a missing or falsy state field
each yield cache_parse_error; a truthy state value of any shape is
accepted as a successful load. -/
theorem decodeStrictnessAmended (E : Env) (st : LoaderState) (m : Int)
    (content : FileContent)
    (hdir : E.granolaDirExists = true)
    (hfile : E.cacheFile = some (m, content))
    (hmiss : freshHit st m = false) :
    (content = .notJson →
      (loadCacheImpl E st).1 = .error .cache_parse_error)
    ∧ (∀ outer, content = .json outer → oGetProp outer "cache" = .error () →
      (loadCacheImpl E st).1 = .error .cache_parse_error)
    ∧ (∀ outer, content = .json outer → oGetProp outer "cache" = .ok none →
      (loadCacheImpl E st).1 = .error .cache_parse_error)
    ∧ (∀ outer v, content = .json outer →
        oGetProp outer "cache" = .ok (some v) → (∀ ip, v ≠ .str ip) →
      (loadCacheImpl E st).1 = .error .cache_parse_error)
    ∧ (∀ kvs, content = .json (.obj kvs) →
        kvs.lookup "cache" = some (.num 123) →
      (loadCacheImpl E st).1 = .error .cache_parse_error)
    ∧ (∀ outer, content = .json outer →
        oGetProp outer "cache" = .ok (some (.str none)) →
      (loadCacheImpl E st).1 = .error .cache_parse_error)
    ∧ (∀ outer inner, content = .json outer →
        oGetProp outer "cache" = .ok (some (.str (some inner))) →
        jGetProp inner "state" = .error () →
      (loadCacheImpl E st).1 = .error .cache_parse_error)
    ∧ (∀ outer inner sv, content = .json outer →
        oGetProp outer "cache" = .ok (some (.str (some inner))) →
        jGetProp inner "state" = .ok sv → jTruthyOpt sv = false →
      (loadCacheImpl E st).1 = .error .cache_parse_error)
    ∧ (∀ outer inner s, content = .json outer →
        oGetProp outer "cache" = .ok (some (.str (some inner))) →
        jGetProp inner "state" = .ok (some s) → jTruthy s = true →
      (loadCacheImpl E st).1 = .ok s (E.now - m)) := by
  have hr := loadCacheImpl_read E st m content hdir hfile hmiss
  refine ⟨?_, ?_, ?_, ?_, ?_, ?_, ?_, ?_, ?_⟩
  · intro hc
    subst hc
    rw [hr]
    rfl
  · intro outer hc hcache
    subst hc
    rw [hr]
    simp [decodeContent, hcache]
  · intro outer hc hcache
    subst hc
    rw [hr]
    simp [decodeContent, hcache]
  · intro outer v hc hcache hnotstr
    subst hc
    rw [hr]
    cases v with
    | str ip => exact absurd rfl (hnotstr ip)
    | null => simp [decodeContent, hcache]
    | bool b => simp [decodeContent, hcache]
    | num n => simp [decodeContent, hcache]
    | arr xs => simp [decodeContent, hcache]
    | obj kvs => simp [decodeContent, hcache]
  · intro kvs hc hcache
    subst hc
    rw [hr]
    simp [decodeContent, oGetProp, hcache]
  · intro outer hc hcache
    subst hc
    rw [hr]
    simp [decodeContent, hcache]
  · intro outer inner hc hcache hstate
    subst hc
    rw [hr]
    simp [decodeContent, hcache, hstate]
  · intro outer inner sv hc hcache hstate hfalsy
    subst hc
    rw [hr]
    cases sv with
    | none => simp [decodeContent, hcache, hstate]
    | some s =>
      have hs : jTruthy s = false := hfalsy
      simp [decodeContent, hcache, hstate, hs]
  · intro outer inner s hc hcache hstate htruthy
    subst hc
    rw [hr]
    simp [decodeContent, hcache, hstate, htruthy]

/-- Witness for C4 (amended): the envelope with cache = 123 at a concrete
environment yields cache_parse_error. -/
theorem decodeStrictnessAmended_witness :
    (loadCacheImpl envShapeErr ⟨none, 0⟩).1 = .error .cache_parse_error :=
  ((decodeStrictnessAmended envShapeErr ⟨none, 0⟩ 6
      (.json (.obj [("cache", .num 123)])) rfl rfl rfl).2.2.2.2.1)
    [("cache", .num 123)] rfl rfl

end Granola

namespace Granola

/-- C5: a decoded state containing a null document record makes
getRecentMeetings throw (a TypeError escaping as a rejected promise), and
a null segment inside a segment list makes getTranscript throw, instead of
returning a Failure variant.  Both inner documents pass every decoder
check, so the inputs are reachable cache-file contents. -/
theorem queryThrows_onMalformedEntries :
    (getRecentMeetings envNullDoc ⟨none, 0⟩ 50).1 = .error ()
    ∧ (getTranscript envNullSeg ⟨none, 0⟩ "a").1 = .error () :=
  ⟨rfl, rfl⟩

/-- C8: the granola:get-transcript operation with a non-string or
whitespace-only documentId answers cache_not_found at once: the module
state is untouched and no directory check, stat, read or decode happens. -/
theorem emptyIdShortCircuit (E : Env) (st : LoaderState) (arg : Option JVal)
    (h : (match arg with
          | some (.str s) => trimIsEmpty s
          | _ => true) = true) :
    granolaGetTranscriptHandler E st arg
      = (.ok (.failure .cache_not_found), st, ⟨0, 0, 0, 0⟩) := by
  unfold granolaGetTranscriptHandler
  cases arg with
  | none => rfl
  | some v =>
    cases v with
    | str s =>
      have hs : trimIsEmpty s = true := h
      simp [hs]
    | null => rfl
    | bool b => rfl
    | num n => rfl
    | arr xs => rfl
    | obj kvs => rfl

/-- Witness for C8: a whitespace-only id at a live environment. -/
theorem emptyIdShortCircuit_witness :
    granolaGetTranscriptHandler envTwoDocs ⟨none, 0⟩ (some (.str "  "))
      = (.ok (.failure .cache_not_found), ⟨none, 0⟩, ⟨0, 0, 0, 0⟩) :=
  emptyIdShortCircuit envTwoDocs ⟨none, 0⟩ (some (.str "  ")) (by decide)


/-! Sorting and traversal lemmas. -/

/-- Membership in an insertion. -/
theorem mem_insertBy {le : α → α → Bool} {x z : α} :
    ∀ {l : List α}, z ∈ insertBy le x l → z = x ∨ z ∈ l := by
  intro l
  induction l with
  | nil =>
    intro h
    simp [insertBy] at h
    exact Or.inl h
  | cons y ys ih =>
    intro h
    unfold insertBy at h
    by_cases hc : (le y x && !le x y) = true
    · rw [if_pos hc] at h
      rcases List.mem_cons.mp h with h1 | h2
      · exact Or.inr (List.mem_cons.mpr (Or.inl h1))
      · rcases ih h2 with h3 | h4
        · exact Or.inl h3
        · exact Or.inr (List.mem_cons.mpr (Or.inr h4))
    · rw [if_neg hc] at h
      rcases List.mem_cons.mp h with h1 | h2
      · exact Or.inl h1
      · exact Or.inr h2

/-- Inserting into a sorted list keeps it sorted, for a transitive total
comparator. -/
theorem pairwise_insertBy {le : α → α → Bool}
    (htrans : ∀ a b c, le a b = true → le b c = true → le a c = true)
    (htot : ∀ a b, le a b = true ∨ le b a = true) (x : α) :
    ∀ {l : List α}, l.Pairwise (fun a b => le a b = true) →
      (insertBy le x l).Pairwise (fun a b => le a b = true) := by
  intro l
  induction l with
  | nil =>
    intro _
    simp [insertBy]
  | cons y ys ih =>
    intro h
    rcases List.pairwise_cons.mp h with ⟨hy, hys⟩
    unfold insertBy
    by_cases hc : (le y x && !le x y) = true
    · rw [if_pos hc]
      refine List.pairwise_cons.mpr ⟨?_, ih hys⟩
      intro z hz
      rcases mem_insertBy hz with rfl | hz2
      · cases hyx : le y z with
        | true => rfl
        | false =>
          rw [hyx] at hc
          exact absurd hc (by simp)
      · exact hy z hz2
    · rw [if_neg hc]
      have hxy : le x y = true := by
        rcases htot x y with h1 | h1
        · exact h1
        · cases hle : le x y with
          | true => rfl
          | false =>
            rw [h1, hle] at hc
            exact absurd rfl hc
      refine List.pairwise_cons.mpr ⟨?_, h⟩
      intro z hz
      rcases List.mem_cons.mp hz with rfl | hz2
      · exact hxy
      · exact htrans x y z hxy (hy z hz2)

/-- The stable sort sorts, for a transitive total comparator. -/
theorem pairwise_stableSortBy {le : α → α → Bool}
    (htrans : ∀ a b c, le a b = true → le b c = true → le a c = true)
    (htot : ∀ a b, le a b = true ∨ le b a = true) :
    ∀ l : List α,
      (stableSortBy le l).Pairwise (fun a b => le a b = true) := by
  intro l
  induction l with
  | nil => simp [stableSortBy]
  | cons x xs ih => exact pairwise_insertBy htrans htot x ih

/-- The stable sort only permutes: membership is preserved. -/
theorem mem_stableSortBy {le : α → α → Bool} {z : α} :
    ∀ {l : List α}, z ∈ stableSortBy le l → z ∈ l := by
  intro l
  induction l with
  | nil =>
    intro h
    simp [stableSortBy] at h
  | cons x xs ih =>
    intro h
    rcases mem_insertBy h with rfl | h2
    · exact List.mem_cons.mpr (Or.inl rfl)
    · exact List.mem_cons.mpr (Or.inr (ih h2))

/-- Every element of a successful effectful map comes from a source
element the function maps to it. -/
theorem exMap_mem {f : α → Except Unit β} :
    ∀ {xs : List α} {ys : List β}, exMap f xs = .ok ys →
      ∀ y ∈ ys, ∃ x, x ∈ xs ∧ f x = .ok y := by
  intro xs
  induction xs with
  | nil =>
    intro ys h y hy
    unfold exMap at h
    injection h with h2
    subst h2
    simp at hy
  | cons x xs ih =>
    intro ys h y hy
    unfold exMap at h
    cases hf : f x with
    | error e =>
      rw [hf] at h
      exact absurd h (by simp)
    | ok z =>
      rw [hf] at h
      cases hrest : exMap f xs with
      | error e =>
        rw [hrest] at h
        exact absurd h (by simp)
      | ok zs =>
        rw [hrest] at h
        injection h with h2
        subst h2
        rcases List.mem_cons.mp hy with rfl | h3
        · exact ⟨x, List.mem_cons.mpr (Or.inl rfl), hf⟩
        · rcases ih hrest y h3 with ⟨x2, hx2, hfx2⟩
          exact ⟨x2, List.mem_cons.mpr (Or.inr hx2), hfx2⟩

/-- Every element of a successful effectful filter is a source element on
which the predicate returned true. -/
theorem exFilter_mem {p : α → Except Unit Bool} :
    ∀ {xs ys : List α}, exFilter p xs = .ok ys →
      ∀ y ∈ ys, y ∈ xs ∧ p y = .ok true := by
  intro xs
  induction xs with
  | nil =>
    intro ys h y hy
    unfold exFilter at h
    injection h with h2
    subst h2
    simp at hy
  | cons x xs ih =>
    intro ys h y hy
    unfold exFilter at h
    cases hf : p x with
    | error e =>
      rw [hf] at h
      exact absurd h (by simp)
    | ok b =>
      rw [hf] at h
      cases hrest : exFilter p xs with
      | error e =>
        rw [hrest] at h
        exact absurd h (by simp)
      | ok zs =>
        rw [hrest] at h
        injection h with h2
        subst h2
        cases b with
        | true =>
          rcases List.mem_cons.mp hy with rfl | h3
          · exact ⟨List.mem_cons.mpr (Or.inl rfl), hf⟩
          · rcases ih hrest y h3 with ⟨hx2, hp2⟩
            exact ⟨List.mem_cons.mpr (Or.inr hx2), hp2⟩
        | false =>
          rcases ih hrest y hy with ⟨hx2, hp2⟩
          exact ⟨List.mem_cons.mpr (Or.inr hx2), hp2⟩

end Granola

namespace Granola

/-- Successful normalization determines the pipeline stages it went
through. -/
theorem getRecentMeetingsFrom_ok {E : Env} {state : JVal} {age : Int}
    {limit : Nat} {l : List GDoc} {age2 : Int}
    (h : getRecentMeetingsFrom E state age limit = .ok (.success l age2)) :
    age2 = age ∧
    ∃ docsv trv kept mapped,
      jGetProp state "documents" = .ok docsv ∧
      jGetProp state "transcripts" = .ok trv ∧
      exFilter docFilter (objectValues (jOrEmptyObj docsv)) = .ok kept ∧
      exMap (normDoc E (jOrEmptyObj trv)) kept = .ok mapped ∧
      l = (stableSortBy byCreatedDesc mapped).take limit := by
  unfold getRecentMeetingsFrom at h
  cases h1 : jGetProp state "documents" with
  | error e =>
    rw [h1] at h
    exact absurd h (by simp)
  | ok docsv =>
    rw [h1] at h
    dsimp only at h
    cases h2 : jGetProp state "transcripts" with
    | error e =>
      rw [h2] at h
      exact absurd h (by simp)
    | ok trv =>
      rw [h2] at h
      dsimp only at h
      cases h3 : exFilter docFilter (objectValues (jOrEmptyObj docsv)) with
      | error e =>
        rw [h3] at h
        exact absurd h (by simp)
      | ok kept =>
        rw [h3] at h
        dsimp only at h
        cases h4 : exMap (normDoc E (jOrEmptyObj trv)) kept with
        | error e =>
          rw [h4] at h
          exact absurd h (by simp)
        | ok mapped =>
          rw [h4] at h
          dsimp only at h
          simp only [Except.ok.injEq, GranolaResult.success.injEq] at h
          exact ⟨h.2.symm, docsv, trv, kept, mapped, rfl, rfl, h3, h4,
                 h.1.symm⟩

/-- A successful listing call determines the loader result and the pure
normalization equation. -/
theorem getRecentMeetings_ok (E : Env) (st : LoaderState) (limit : Nat)
    (l : List GDoc) (age : Int) (st2 : LoaderState) (c : Counts)
    (h : getRecentMeetings E st limit = (.ok (.success l age), st2, c)) :
    ∃ state age0,
      (loadCacheImpl E st).1 = .ok state age0
      ∧ (loadCacheImpl E st).2.1 = st2
      ∧ (loadCacheImpl E st).2.2 = c
      ∧ getRecentMeetingsFrom E state age0 limit = .ok (.success l age) := by
  unfold getRecentMeetings at h
  cases hl : loadCacheImpl E st with
  | mk r rest =>
    cases rest with
    | mk st3 c3 =>
      rw [hl] at h
      cases r with
      | error e => simp at h
      | ok state age0 =>
        simp only [Prod.mk.injEq] at h
        exact ⟨state, age0, rfl, h.2.1, h.2.2, h.1⟩

/-- A passing filter determines a truthy id and a falsy delete marker. -/
theorem docFilter_true {doc : JVal} (h : docFilter doc = .ok true) :
    ∃ idv del, jGetProp doc "id" = .ok idv ∧ jTruthyOpt idv = true ∧
      jGetProp doc "deleted_at" = .ok del ∧ jTruthyOpt del = false := by
  unfold docFilter at h
  cases h1 : jGetProp doc "id" with
  | error e =>
    rw [h1] at h
    exact absurd h (by simp)
  | ok idv =>
    rw [h1] at h
    dsimp only at h
    by_cases h2 : jTruthyOpt idv = true
    · rw [if_pos h2] at h
      cases h3 : jGetProp doc "deleted_at" with
      | error e =>
        rw [h3] at h
        exact absurd h (by simp)
      | ok del =>
        rw [h3] at h
        injection h with h4
        refine ⟨idv, del, rfl, h2, rfl, ?_⟩
        simpa using h4
    · rw [if_neg h2] at h
      exact absurd h (by simp)

/-- C6: every successful listing is sorted by createdAt descending and no
longer than the requested limit. -/
theorem orderingAndLimit (E : Env) (st : LoaderState) (limit : Nat)
    (l : List GDoc) (age : Int) (st2 : LoaderState) (c : Counts)
    (h : getRecentMeetings E st limit = (.ok (.success l age), st2, c)) :
    l.length ≤ limit
    ∧ l.Pairwise (fun a b => b.createdAt ≤ a.createdAt) := by
  obtain ⟨state, age0, hres, hst, hc2, hq⟩ :=
    getRecentMeetings_ok E st limit l age st2 c h
  obtain ⟨hage, docsv, trv, kept, mapped, h1, h2, h3, h4, h5⟩ :=
    getRecentMeetingsFrom_ok hq
  subst h5
  constructor
  · rw [List.length_take]
    exact min_le_left _ _
  · have htrans : ∀ a b c2 : GDoc, byCreatedDesc a b = true →
        byCreatedDesc b c2 = true → byCreatedDesc a c2 = true := by
      intro a b c2 hab hbc
      simp [byCreatedDesc] at hab hbc ⊢
      omega
    have htot : ∀ a b : GDoc,
        byCreatedDesc a b = true ∨ byCreatedDesc b a = true := by
      intro a b
      simp [byCreatedDesc]
      exact le_total _ _
    have hp := pairwise_stableSortBy htrans htot mapped
    have hp2 : (stableSortBy byCreatedDesc mapped).Pairwise
        (fun a b => b.createdAt ≤ a.createdAt) := by
      refine hp.imp ?_
      intro a b hab
      simpa [byCreatedDesc] using hab
    exact List.Pairwise.sublist (List.take_sublist _ _) hp2

/-- Witness for C6: a concrete two-document listing with limit 1. -/
theorem orderingAndLimit_witness :
    ([⟨some (.str "b"), .str "Untitled Meeting", 20, [], false⟩]
        : List GDoc).length ≤ 1
    ∧ ([⟨some (.str "b"), .str "Untitled Meeting", 20, [], false⟩]
        : List GDoc).Pairwise (fun a b => b.createdAt ≤ a.createdAt) :=
  orderingAndLimit envTwoDocs ⟨none, 0⟩ 1
    [⟨some (.str "b"), .str "Untitled Meeting", 20, [], false⟩] 95
    ⟨some stateTwoDocs, 5⟩ ⟨1, 1, 1, 1⟩ rfl

end Granola

namespace Granola

/-- A successful normalization stores the record's id value in the
document. -/
theorem normDoc_ok_id {E : Env} {t doc : JVal} {d : GDoc}
    (h : normDoc E t doc = .ok d) : jGetProp doc "id" = .ok d.id := by
  unfold normDoc at h
  cases h1 : jGetProp doc "id" with
  | error e =>
    rw [h1] at h
    exact absurd h (by simp)
  | ok idv =>
    rw [h1] at h
    dsimp only at h
    cases h2 : jGetProp doc "title" with
    | error e =>
      rw [h2] at h
      exact absurd h (by simp)
    | ok titlev =>
      rw [h2] at h
      dsimp only at h
      cases h3 : jGetProp doc "created_at" with
      | error e =>
        rw [h3] at h
        exact absurd h (by simp)
      | ok createdv =>
        rw [h3] at h
        dsimp only at h
        cases h4 : jGetProp doc "people" with
        | error e =>
          rw [h4] at h
          exact absurd h (by simp)
        | ok peoplev =>
          rw [h4] at h
          dsimp only at h
          cases h5 : mapPeople peoplev with
          | error e =>
            rw [h5] at h
            exact absurd h (by simp)
          | ok parts =>
            rw [h5] at h
            dsimp only at h
            injection h with h6
            subst h6
            rfl

/-- C7 counterexample: the only raw record has deleted_at present, equal
to the empty string (so non-null), yet its document is returned: the
filter tests truthiness, and the empty string is falsy. -/
theorem softDeleteFiltering_cex :
    (getRecentMeetings envEmptyDeleted ⟨none, 0⟩ 50).1
      = .ok (.success
          [⟨some (.str "a"), .str "Untitled Meeting", 100, [], false⟩] 95)
    ∧ jGetProp (.obj [("id", .str "a"), ("deleted_at", .str "")])
        "deleted_at" = .ok (some (.str ""))
    ∧ JVal.str "" ≠ JVal.null := by
  refine ⟨rfl, rfl, ?_⟩
  intro h
  exact JVal.noConfusion h

/-- C7 (amended): every returned document comes from a raw record whose
id is truthy and whose deleted_at is falsy; hence a record with a truthy
delete marker (present, non-null and non-empty) never surfaces, while a
record whose deleted_at is the empty string (or 0, or false) passes the
filter. -/
theorem softDeleteFilteringAmended (E : Env) (st : LoaderState)
    (limit : Nat) (l : List GDoc) (age : Int) (st2 : LoaderState)
    (c : Counts)
    (h : getRecentMeetings E st limit = (.ok (.success l age), st2, c)) :
    ∀ d ∈ l, ∃ state age0 docsv trv doc idv del,
      (loadCacheImpl E st).1 = .ok state age0
      ∧ jGetProp state "documents" = .ok docsv
      ∧ jGetProp state "transcripts" = .ok trv
      ∧ doc ∈ objectValues (jOrEmptyObj docsv)
      ∧ jGetProp doc "id" = .ok idv
      ∧ jTruthyOpt idv = true
      ∧ jGetProp doc "deleted_at" = .ok del
      ∧ jTruthyOpt del = false
      ∧ normDoc E (jOrEmptyObj trv) doc = .ok d := by
  intro d hd
  obtain ⟨state, age0, hres, hst, hc2, hq⟩ :=
    getRecentMeetings_ok E st limit l age st2 c h
  obtain ⟨hage, docsv, trv, kept, mapped, h1, h2, h3, h4, h5⟩ :=
    getRecentMeetingsFrom_ok hq
  subst h5
  have hd2 : d ∈ mapped :=
    mem_stableSortBy (List.mem_of_mem_take hd)
  obtain ⟨doc, hdocmem, hnorm⟩ := exMap_mem h4 d hd2
  obtain ⟨hdocsrc, hfilter⟩ := exFilter_mem h3 doc hdocmem
  obtain ⟨idv, del, hid, hidt, hdel, hdelf⟩ := docFilter_true hfilter
  exact ⟨state, age0, docsv, trv, doc, idv, del, hres, h1, h2, hdocsrc,
         hid, hidt, hdel, hdelf, hnorm⟩

/-- Witness for C7 (amended): the concrete two-document listing, applied
to its single returned document. -/
theorem softDeleteFilteringAmended_witness :
    ∃ state age0 docsv trv doc idv del,
      (loadCacheImpl envTwoDocs ⟨none, 0⟩).1 = .ok state age0
      ∧ jGetProp state "documents" = .ok docsv
      ∧ jGetProp state "transcripts" = .ok trv
      ∧ doc ∈ objectValues (jOrEmptyObj docsv)
      ∧ jGetProp doc "id" = .ok idv
      ∧ jTruthyOpt idv = true
      ∧ jGetProp doc "deleted_at" = .ok del
      ∧ jTruthyOpt del = false
      ∧ normDoc envTwoDocs (jOrEmptyObj trv) doc
          = .ok ⟨some (.str "b"), .str "Untitled Meeting", 20, [], false⟩ :=
  softDeleteFilteringAmended envTwoDocs ⟨none, 0⟩ 1
    [⟨some (.str "b"), .str "Untitled Meeting", 20, [], false⟩] 95
    ⟨some stateTwoDocs, 5⟩ ⟨1, 1, 1, 1⟩ rfl
    ⟨some (.str "b"), .str "Untitled Meeting", 20, [], false⟩
    (List.mem_singleton.mpr rfl)

end Granola

namespace Granola

/-- segText is total on non-null segments and computes segTextValue. -/
theorem segText_ok {s : JVal} (h : s ≠ JVal.null) :
    segText s = .ok (segTextValue s) := by
  cases s with
  | null => exact absurd rfl h
  | bool b => rfl
  | num n => rfl
  | str s2 => rfl
  | arr xs => rfl
  | obj kvs => rfl

/-- Mapping segText over a list of non-null segments succeeds. -/
theorem exMap_segText {segs : List JVal}
    (h : ∀ s ∈ segs, s ≠ JVal.null) :
    exMap segText segs = .ok (segs.map segTextValue) := by
  induction segs with
  | nil => rfl
  | cons x xs ih =>
    unfold exMap
    rw [segText_ok (h x (List.mem_cons.mpr (Or.inl rfl))),
        ih (fun s hs => h s (List.mem_cons.mpr (Or.inr hs)))]
    rfl

/-- A successful decode stores the decoded truthy state at the file's
modification time and reports the age it was handed. -/
theorem decodeContent_ok {content : FileContent} {mtime ageMs : Int}
    {st : LoaderState} {state : JVal} {age0 : Int} {st2 : LoaderState}
    (h : decodeContent content mtime ageMs st = (.ok state age0, st2)) :
    st2 = ⟨some state, mtime⟩ ∧ jTruthy state = true ∧ age0 = ageMs := by
  unfold decodeContent at h
  cases content with
  | notJson => simp at h
  | json outer =>
    dsimp only at h
    cases hc : oGetProp outer "cache" with
    | error e =>
      rw [hc] at h
      simp at h
    | ok cachev =>
      rw [hc] at h
      cases cachev with
      | none => simp at h
      | some v =>
        cases v with
        | null => simp at h
        | bool b => simp at h
        | num n => simp at h
        | arr xs => simp at h
        | obj kvs => simp at h
        | str ip =>
          cases ip with
          | none => simp at h
          | some inner =>
            dsimp only at h
            cases hs : jGetProp inner "state" with
            | error e =>
              rw [hs] at h
              simp at h
            | ok sv =>
              rw [hs] at h
              cases sv with
              | none => simp at h
              | some s =>
                dsimp only at h
                by_cases ht : jTruthy s = true
                · rw [if_pos ht] at h
                  simp only [Prod.mk.injEq] at h
                  injection h.1 with h1 h2
                  subst h1
                  exact ⟨h.2.symm, ht, h2.symm⟩
                · rw [if_neg ht] at h
                  simp at h

/-- A successful load leaves the module holding the returned truthy state
at the file's modification time, with age measured from it. -/
theorem loadCacheImpl_ok_state (E : Env) (st : LoaderState) (state : JVal)
    (age0 m : Int) (content : FileContent)
    (hfile : E.cacheFile = some (m, content))
    (hok : (loadCacheImpl E st).1 = .ok state age0) :
    (loadCacheImpl E st).2.1 = ⟨some state, m⟩
    ∧ jTruthy state = true
    ∧ E.granolaDirExists = true
    ∧ age0 = E.now - m := by
  obtain ⟨cs, cm⟩ := st
  cases hdir : E.granolaDirExists with
  | false =>
    unfold loadCacheImpl segAccess at hok
    rw [hdir] at hok
    simp at hok
  | true =>
    have hacc := segAccess_exists E ⟨cs, cm⟩ hdir
    unfold loadCacheImpl at hok ⊢
    rw [hacc] at hok ⊢
    cases hstat : segStat E ⟨cs, cm⟩ with
    | some pr =>
      obtain ⟨r, st3⟩ := pr
      rw [hstat] at hok
      dsimp only at hok ⊢
      subst hok
      unfold segStat at hstat
      rw [hfile] at hstat
      cases cs with
      | none => simp at hstat
      | some s0 =>
        dsimp only at hstat
        by_cases hcnd : (jTruthy s0 && m == cm) = true
        · rw [if_pos hcnd] at hstat
          injection hstat with h2
          simp only [Prod.mk.injEq] at h2
          obtain ⟨h3, h4⟩ := h2
          injection h3 with h5 h6
          subst h4
          simp only [Bool.and_eq_true] at hcnd
          have hm : m = cm := by simpa using hcnd.2
          refine ⟨?_, ?_, rfl, ?_⟩
          · rw [hm, ← h5]
          · rw [← h5]
            exact hcnd.1
          · rw [h6]
        · rw [if_neg hcnd] at hstat
          simp at hstat
    | none =>
      rw [hstat] at hok
      dsimp only at hok ⊢
      unfold segRead at hok ⊢
      rw [hfile] at hok ⊢
      dsimp only at hok ⊢
      cases hdc : decodeContent content m (E.now - m) ⟨cs, cm⟩ with
      | mk r st3 =>
        rw [hdc] at hok
        dsimp only at hok ⊢
        subst hok
        obtain ⟨h1, h2, h3⟩ := decodeContent_ok hdc
        exact ⟨h1, h2, rfl, h3⟩

/-- C10: the transcript query consults only the transcripts map.  For any
loaded state whose transcripts entry at an id is a non-empty list of
non-null segments, getTranscript succeeds with the joined text; and under
the hypothesis that every raw record carrying that id is soft-deleted
(which also covers the id being absent from the documents map), no listing
ever returns a document with that id. -/
theorem transcriptIgnoresDocuments
    (E : Env) (st : LoaderState) (state : JVal) (age0 : Int)
    (tkvs : List (String × JVal)) (id : String) (segs : List JVal)
    (hload : (loadCacheImpl E st).1 = .ok state age0)
    (ht : jGetProp state "transcripts" = .ok (some (.obj tkvs)))
    (hseg : tkvs.lookup id = some (.arr segs))
    (hne : segs ≠ [])
    (hsegok : ∀ s ∈ segs, s ≠ JVal.null) :
    (getTranscript E st id).1 = .ok (.success ⟨id, joinSegTexts segs⟩ age0)
    ∧ (∀ limit l age st2 c docsv,
        getRecentMeetings E st limit = (.ok (.success l age), st2, c) →
        jGetProp state "documents" = .ok docsv →
        (∀ doc ∈ objectValues (jOrEmptyObj docsv), ∀ idv,
            jGetProp doc "id" = .ok idv → idv = some (.str id) →
            ∃ del, jGetProp doc "deleted_at" = .ok del
              ∧ jTruthyOpt del = true) →
        ∀ d ∈ l, d.id ≠ some (.str id)) := by
  constructor
  · unfold getTranscript
    cases hl : loadCacheImpl E st with
    | mk r rest =>
      rw [hl] at hload
      obtain ⟨st3, c3⟩ := rest
      have hr : r = .ok state age0 := hload
      subst hr
      dsimp only
      unfold getTranscriptFrom
      rw [ht]
      dsimp only
      have hidx : jIndex (.obj tkvs) id = some (.arr segs) := hseg
      rw [hidx]
      cases segs with
      | nil => exact absurd rfl hne
      | cons a as =>
        dsimp only
        rw [if_neg (by simp), exMap_segText hsegok]
        rfl
  · intro limit l age st2 c docsv hq hdocs hdel d hd hideq
    obtain ⟨state2, age02, hres2, hst2, hc2, hq2⟩ :=
      getRecentMeetings_ok E st limit l age st2 c hq
    obtain ⟨hage, docsv2, trv, kept, mapped, h1, h2, h3, h4, h5⟩ :=
      getRecentMeetingsFrom_ok hq2
    have hse : LoadCacheResult.ok state age0 = .ok state2 age02 :=
      hload.symm.trans hres2
    injection hse with hs1 hs2
    subst hs1
    have hdv : Except.ok docsv = .ok docsv2 := hdocs.symm.trans h1
    injection hdv with hdv2
    subst hdv2
    subst h5
    have hd2 : d ∈ mapped := mem_stableSortBy (List.mem_of_mem_take hd)
    obtain ⟨doc, hdocmem, hnorm⟩ := exMap_mem h4 d hd2
    obtain ⟨hdocsrc, hfilter⟩ := exFilter_mem h3 doc hdocmem
    obtain ⟨idv, del, hid, hidt, hdelp, hdelf⟩ := docFilter_true hfilter
    have hid2 := normDoc_ok_id hnorm
    obtain ⟨del2, hdelp2, hdelt⟩ := hdel doc hdocsrc d.id hid2 hideq
    have hde : Except.ok del = .ok del2 := hdelp.symm.trans hdelp2
    injection hde with hdeleq
    rw [← hdeleq] at hdelt
    simp [hdelf] at hdelt

/-- Witness for C10: the transcript of a soft-deleted document is served,
dropping the empty segment (the Hello/World scenario). -/
theorem transcriptIgnoresDocuments_witness :
    (getTranscript envDeleted ⟨none, 0⟩ "a").1
      = .ok (.success ⟨"a", "Hello\nWorld"⟩ 95) := by
  have h := (transcriptIgnoresDocuments envDeleted ⟨none, 0⟩
      stateDeletedWithTranscript 95
      [("a", .arr [.obj [("text", .str "Hello")],
                   .obj [("text", .str "")],
                   .obj [("text", .str "World")]])] "a"
      [.obj [("text", .str "Hello")], .obj [("text", .str "")],
       .obj [("text", .str "World")]]
      rfl rfl rfl (by simp)
      (by
        intro s hs
        simp at hs
        rcases hs with rfl | rfl | rfl <;> intro hn <;> exact JVal.noConfusion hn)).1
  rw [h]
  rfl

end Granola

namespace Granola

/-- Effectful maps of pointwise equal functions agree. -/
theorem exMap_congr {f g : α → Except Unit β} :
    ∀ {xs : List α}, (∀ x ∈ xs, f x = g x) → exMap f xs = exMap g xs := by
  intro xs
  induction xs with
  | nil => intro _; rfl
  | cons x xs ih =>
    intro h
    unfold exMap
    rw [h x (List.mem_cons.mpr (Or.inl rfl)),
        ih (fun y hy => h y (List.mem_cons.mpr (Or.inr hy)))]

/-- parseEpoch ignores the clock whenever the value is a truthy date the
(shared) parser accepts. -/
theorem parseEpoch_congr (E E2 : Env) (cv : Option JVal) (v : JVal)
    (t : Int) (hdp : E2.dateParse = E.dateParse) (hcv : cv = some v)
    (htr : jTruthy v = true) (hp : E.dateParse v = some t) :
    parseEpoch E2 cv = parseEpoch E cv := by
  subst hcv
  unfold parseEpoch
  rw [hdp]
  simp [jTruthyOpt, htr, hp]

/-- Normalizing one record is clock-independent when its created_at is a
truthy value the shared date parser accepts. -/
theorem normDoc_env_congr (E E2 : Env) (t doc : JVal)
    (hdp : E2.dateParse = E.dateParse)
    (hcv : ∀ cv, jGetProp doc "created_at" = .ok cv →
        ∃ v t2, cv = some v ∧ jTruthy v = true ∧ E.dateParse v = some t2) :
    normDoc E2 t doc = normDoc E t doc := by
  unfold normDoc
  cases h1 : jGetProp doc "id" with
  | error e => rfl
  | ok idv =>
    dsimp only
    cases h2 : jGetProp doc "title" with
    | error e => rfl
    | ok titlev =>
      dsimp only
      cases h3 : jGetProp doc "created_at" with
      | error e => rfl
      | ok createdv =>
        dsimp only
        cases h4 : jGetProp doc "people" with
        | error e => rfl
        | ok peoplev =>
          dsimp only
          cases h5 : mapPeople peoplev with
          | error e => rfl
          | ok parts =>
            dsimp only
            obtain ⟨v, t2, hcv1, htr, hp⟩ := hcv createdv h3
            rw [parseEpoch_congr E E2 createdv v t2 hdp hcv1 htr hp]

/-- C9 counterexample: two listing calls with no intervening write.  The
document has no created_at, so its createdAt is the clock value of each
call: the second call reads nothing (cache hit) but the returned data
differ (1000 versus 2000), refuting identity of the data. -/
theorem idempotence_cex :
    (getRecentMeetings envNine1 ⟨none, 0⟩ 50).1
      = .ok (.success
          [⟨some (.str "a"), .str "Untitled Meeting", 1000, [], false⟩] 990)
    ∧ (getRecentMeetings envNine1 ⟨none, 0⟩ 50).2.1
      = ⟨some stateNoCreated, 10⟩
    ∧ (getRecentMeetings envNine2 ⟨some stateNoCreated, 10⟩ 50).1
      = .ok (.success
          [⟨some (.str "a"), .str "Untitled Meeting", 2000, [], false⟩] 1990)
    ∧ (getRecentMeetings envNine2 ⟨some stateNoCreated, 10⟩ 50).2.2.reads = 0
    ∧ ([⟨some (.str "a"), .str "Untitled Meeting", 1000, [], false⟩]
        : List GDoc)
      ≠ [⟨some (.str "a"), .str "Untitled Meeting", 2000, [], false⟩] := by
  refine ⟨rfl, rfl, rfl, rfl, ?_⟩
  intro h
  have h3 := congrArg
    (fun l => match l with | d :: _ => GDoc.createdAt d | [] => 0) h
  simp at h3

/-- C9 (amended): with no intervening write, the second listing call
performs no file read and no decode (it serves the held snapshot), and
returns the same document data as the first call provided every raw
record's created_at is a truthy value the date parser accepts; the
reported age tracks the second call's clock.  (When a created_at is
absent or unparseable its createdAt is the clock of the respective call,
so the data can differ, as the counterexample shows.) -/
theorem idempotenceAmended (E E2 : Env) (st : LoaderState) (limit : Nat)
    (state : JVal) (age0 m : Int) (content : FileContent)
    (docsv : Option JVal) (l : List GDoc) (age : Int) (st2 : LoaderState)
    (c : Counts)
    (hdir2 : E2.granolaDirExists = E.granolaDirExists)
    (hfile2 : E2.cacheFile = E.cacheFile)
    (hdate2 : E2.dateParse = E.dateParse)
    (hfile : E.cacheFile = some (m, content))
    (hload : (loadCacheImpl E st).1 = .ok state age0)
    (hq : getRecentMeetings E st limit = (.ok (.success l age), st2, c))
    (hdocs : jGetProp state "documents" = .ok docsv)
    (hnonow : ∀ doc ∈ objectValues (jOrEmptyObj docsv), ∀ cv,
        jGetProp doc "created_at" = .ok cv →
        ∃ v t, cv = some v ∧ jTruthy v = true ∧ E.dateParse v = some t) :
    getRecentMeetings E2 st2 limit
      = (.ok (.success l (E2.now - m)), st2, ⟨1, 1, 0, 0⟩) := by
  obtain ⟨hst2eq, htr, hdirE, hage0⟩ :=
    loadCacheImpl_ok_state E st state age0 m content hfile hload
  obtain ⟨state2, age02, hres2, hst2, hc2, hq2⟩ :=
    getRecentMeetings_ok E st limit l age st2 c hq
  have hse := hload.symm.trans hres2
  injection hse with hs1 hs2
  subst hs1
  subst hs2
  have hst2v : st2 = ⟨some state, m⟩ := hst2.symm.trans hst2eq
  have hhit := loadCacheImpl_hit E2 st2 state m content
    (by rw [hdir2, hdirE]) (by rw [hfile2, hfile]) (by rw [hst2v])
    htr (by rw [hst2v])
  obtain ⟨hage, docsv2, trv, kept, mapped, h1, h2, h3, h4, h5⟩ :=
    getRecentMeetingsFrom_ok hq2
  have hdv := hdocs.symm.trans h1
  injection hdv with hdv2
  subst hdv2
  have hmap2 : exMap (normDoc E2 (jOrEmptyObj trv)) kept = .ok mapped := by
    rw [exMap_congr (fun doc hdoc =>
      normDoc_env_congr E E2 (jOrEmptyObj trv) doc hdate2
        (hnonow doc (exFilter_mem h3 doc hdoc).1))]
    exact h4
  have hfrom2 : getRecentMeetingsFrom E2 state (E2.now - m) limit
      = .ok (.success l (E2.now - m)) := by
    unfold getRecentMeetingsFrom
    rw [h1]
    dsimp only
    rw [h2]
    dsimp only
    rw [h3]
    dsimp only
    rw [hmap2]
    dsimp only
    rw [h5]
  unfold getRecentMeetings
  rw [hhit]
  dsimp only
  rw [hfrom2]

end Granola

namespace Granola

/-- Witness for C9 (amended): concrete first call at clock 1000, second
at clock 2000 — no read, identical data, fresh age. -/
theorem idempotenceAmended_witness :
    getRecentMeetings envIdem2 ⟨some stateCreated, 10⟩ 50
      = (.ok (.success
            [⟨some (.str "a"), .str "Untitled Meeting", 77, [], false⟩]
            1990),
         ⟨some stateCreated, 10⟩, ⟨1, 1, 0, 0⟩) := by
  have h := idempotenceAmended envIdem1 envIdem2 ⟨none, 0⟩ 50 stateCreated
      990 10 (mkContent stateCreated)
      (some (.obj [("a", .obj [("id", .str "a"),
                    ("created_at", .str "2024-01-01T00:00:00Z")])]))
      [⟨some (.str "a"), .str "Untitled Meeting", 77, [], false⟩] 990
      ⟨some stateCreated, 10⟩ ⟨1, 1, 1, 1⟩
      rfl rfl rfl rfl rfl rfl rfl
      (by
        intro doc hdoc cv hcv
        have hdoc2 : doc ∈ [JVal.obj [("id", JVal.str "a"),
            ("created_at", JVal.str "2024-01-01T00:00:00Z")]] := hdoc
        rw [List.mem_singleton] at hdoc2
        subst hdoc2
        have hcv2 : Except.ok (some (JVal.str "2024-01-01T00:00:00Z"))
            = Except.ok cv := hcv
        injection hcv2 with h3
        subst h3
        exact ⟨.str "2024-01-01T00:00:00Z", 77, rfl, rfl, rfl⟩)
  exact h

end Granola

namespace Granola

/-- The invariant holds initially. -/
theorem inv_init (E : Env) (st : LoaderState) (n : Nat) :
    Inv E st n (initSys st n) := by
  constructor
  · simp [initSys]
  · exact Or.inl ⟨rfl, rfl, rfl, fun p hp => List.eq_of_mem_replicate hp⟩

/-- Settlement establishes the settled phase of the invariant. -/
theorem settled_inv (E : Env) (st : LoaderState) (n : Nat)
    (procs : List ProcState) (r : LoadCacheResult) (st2 : LoaderState)
    (c2 : Counts)
    (hlc : loadCacheImpl E st = (r, st2, c2))
    (hlen : procs.length = n)
    (hprocs : ∀ p ∈ procs, p = ProcState.start ∨ p = ProcState.waiting)
    (hw : ProcState.waiting ∈ procs) :
    Inv E st n ⟨st2, none, settleProcs procs r, c2⟩ := by
  constructor
  · simp only [settleProcs, List.length_map]
    exact hlen
  · refine Or.inr (Or.inr (Or.inr (Or.inr ⟨rfl, ?_, ?_, ?_, ?_⟩)))
    · rw [hlc]
    · rw [hlc]
    · intro p hp
      rcases List.mem_map.mp hp with ⟨q, hq, hfq⟩
      rcases hprocs q hq with rfl | rfl
      · exact Or.inl hfq.symm
      · right
        rw [hlc]
        exact hfq.symm
    · have h2 := List.mem_map_of_mem
        (fun p => match p with
                  | ProcState.waiting => ProcState.done r
                  | p => p) hw
      rw [hlc]
      exact h2

/-- One scheduler step preserves the invariant, provided calls are only
issued while nothing has settled. -/
theorem inv_step (E : Env) (st : LoaderState) (n : Nat) (sys sys2 : Sys)
    (a : Action) (hinv : Inv E st n sys)
    (hguard : callGuard sys a = true)
    (hstep : step E sys a = some sys2) :
    Inv E st n sys2 := by
  obtain ⟨hlen, hphase⟩ := hinv
  cases a with
  | call i =>
    unfold step at hstep
    dsimp only at hstep
    cases hp : sys.procs.get? i with
    | none =>
      rw [hp] at hstep
      simp at hstep
    | some p =>
      rw [hp] at hstep
      cases p with
      | waiting => simp at hstep
      | done r => simp at hstep
      | start =>
        dsimp only at hstep
        have hlt : i < sys.procs.length := by
          rcases List.get?_eq_some.mp hp with ⟨h, _⟩
          exact h
        cases hf : sys.flight with
        | some pc =>
          rw [hf] at hstep
          dsimp only at hstep
          injection hstep with hs
          subst hs
          constructor
          · simp only [List.length_set]
            exact hlen
          · rcases hphase with ⟨hfn, _⟩ | ⟨hfa, h2, h3, h4, h5⟩
              | ⟨hfa, h2, h3, h4, h5, h6⟩ | ⟨hfa, h2, h3, h4, h5, h6, h7⟩
              | ⟨hfn, _⟩
            · exact absurd (hfn.symm.trans hf) (by simp)
            · refine Or.inr (Or.inl ⟨hf.symm.trans hfa, h2, h3, ?_, ?_⟩)
              · intro q hq
                rcases List.mem_or_eq_of_mem_set hq with hq2 | rfl
                · exact h4 q hq2
                · exact Or.inr rfl
              · exact List.mem_set sys.procs i hlt ProcState.waiting
            · refine Or.inr (Or.inr (Or.inl
                ⟨hf.symm.trans hfa, h2, h3, h4, ?_, ?_⟩))
              · intro q hq
                rcases List.mem_or_eq_of_mem_set hq with hq2 | rfl
                · exact h5 q hq2
                · exact Or.inr rfl
              · exact List.mem_set sys.procs i hlt ProcState.waiting
            · refine Or.inr (Or.inr (Or.inr (Or.inl
                ⟨hf.symm.trans hfa, h2, h3, h4, h5, ?_, ?_⟩)))
              · intro q hq
                rcases List.mem_or_eq_of_mem_set hq with hq2 | rfl
                · exact h6 q hq2
                · exact Or.inr rfl
              · exact List.mem_set sys.procs i hlt ProcState.waiting
            · exact absurd (hfn.symm.trans hf) (by simp)
        | none =>
          rw [hf] at hstep
          dsimp only at hstep
          injection hstep with hs
          subst hs
          rcases hphase with ⟨hfn, h2, h3, h4⟩ | ⟨hfa, _⟩ | ⟨hfa, _⟩
            | ⟨hfa, _⟩ | ⟨hfn, h2, h3, h4, h5⟩
          · constructor
            · simp only [List.length_set]
              exact hlen
            · refine Or.inr (Or.inl ⟨rfl, h2, h3, ?_, ?_⟩)
              · intro q hq
                rcases List.mem_or_eq_of_mem_set hq with hq2 | rfl
                · exact Or.inl (h4 q hq2)
                · exact Or.inr rfl
              · exact List.mem_set sys.procs i hlt ProcState.waiting
          · exact absurd (hfa.symm.trans hf) (by simp)
          · exact absurd (hfa.symm.trans hf) (by simp)
          · exact absurd (hfa.symm.trans hf) (by simp)
          · have hg : noDone sys = true := hguard
            unfold noDone at hg
            have h6 := List.all_eq_true.mp hg _ h5
            simp at h6
  | flightStep =>
    unfold step at hstep
    dsimp only at hstep
    cases hf : sys.flight with
    | none =>
      rw [hf] at hstep
      simp at hstep
    | some pc =>
      rw [hf] at hstep
      cases pc with
      | atAccess =>
        dsimp only at hstep
        rcases hphase with ⟨hfn, _⟩ | ⟨hfa, hld, hc, hp4, hw⟩ | ⟨hfa, _⟩
          | ⟨hfa, _⟩ | ⟨hfn, _⟩
        · exact absurd (hfn.symm.trans hf) (by simp)
        · cases ha : segAccess E sys.loader with
          | some pr =>
            obtain ⟨r, st2⟩ := pr
            rw [ha] at hstep
            dsimp only at hstep
            injection hstep with hs
            subst hs
            rw [hld] at ha
            have hlc : loadCacheImpl E st = (r, st2, ⟨1, 0, 0, 0⟩) := by
              unfold loadCacheImpl
              rw [ha]
            have hres := settled_inv E st n sys.procs r st2 ⟨1, 0, 0, 0⟩
              hlc hlen hp4 hw
            rw [hc]
            exact hres
          | none =>
            rw [ha] at hstep
            dsimp only at hstep
            injection hstep with hs
            subst hs
            rw [hld] at ha
            constructor
            · exact hlen
            · refine Or.inr (Or.inr (Or.inl ⟨rfl, hld, ?_, ha, hp4, hw⟩))
              rw [hc]
        · exact absurd (hfa.symm.trans hf) (by simp)
        · exact absurd (hfa.symm.trans hf) (by simp)
        · exact absurd (hfn.symm.trans hf) (by simp)
      | atStat =>
        dsimp only at hstep
        rcases hphase with ⟨hfn, _⟩ | ⟨hfa, _⟩
          | ⟨hfa, hld, hc, hacc, hp5, hw⟩ | ⟨hfa, _⟩ | ⟨hfn, _⟩
        · exact absurd (hfn.symm.trans hf) (by simp)
        · exact absurd (hfa.symm.trans hf) (by simp)
        · cases ha : segStat E sys.loader with
          | some pr =>
            obtain ⟨r, st2⟩ := pr
            rw [ha] at hstep
            dsimp only at hstep
            injection hstep with hs
            subst hs
            rw [hld] at ha
            have hlc : loadCacheImpl E st = (r, st2, ⟨1, 1, 0, 0⟩) := by
              unfold loadCacheImpl
              rw [hacc, ha]
            have hres := settled_inv E st n sys.procs r st2 ⟨1, 1, 0, 0⟩
              hlc hlen hp5 hw
            rw [hc]
            exact hres
          | none =>
            rw [ha] at hstep
            dsimp only at hstep
            injection hstep with hs
            subst hs
            rw [hld] at ha
            constructor
            · exact hlen
            · refine Or.inr (Or.inr (Or.inr (Or.inl
                ⟨rfl, hld, ?_, hacc, ha, hp5, hw⟩)))
              rw [hc]
        · exact absurd (hfa.symm.trans hf) (by simp)
        · exact absurd (hfn.symm.trans hf) (by simp)
      | atRead =>
        dsimp only at hstep
        rcases hphase with ⟨hfn, _⟩ | ⟨hfa, _⟩ | ⟨hfa, _⟩
          | ⟨hfa, hld, hc, hacc, hstat, hp6, hw⟩ | ⟨hfn, _⟩
        · exact absurd (hfn.symm.trans hf) (by simp)
        · exact absurd (hfa.symm.trans hf) (by simp)
        · exact absurd (hfa.symm.trans hf) (by simp)
        · cases hr : segRead E sys.loader with
          | mk r st2 =>
            rw [hr] at hstep
            dsimp only at hstep
            injection hstep with hs
            subst hs
            rw [hld] at hr
            have hlc : loadCacheImpl E st = (r, st2, ⟨1, 1, 1, 1⟩) := by
              unfold loadCacheImpl
              rw [hacc, hstat, hr]
            have hres := settled_inv E st n sys.procs r st2 ⟨1, 1, 1, 1⟩
              hlc hlen hp6 hw
            rw [hc]
            exact hres
        · exact absurd (hfn.symm.trans hf) (by simp)

/-- Running a batch schedule preserves the invariant. -/
theorem run_inv (E : Env) (st : LoaderState) (n : Nat) :
    ∀ (acts : List Action) (sys final : Sys),
      Inv E st n sys →
      run E sys acts = some final →
      batchOK E sys acts = true →
      Inv E st n final := by
  intro acts
  induction acts with
  | nil =>
    intro sys final hinv hrun _
    unfold run at hrun
    injection hrun with h
    subst h
    exact hinv
  | cons a rest ih =>
    intro sys final hinv hrun hbatch
    unfold run at hrun
    unfold batchOK at hbatch
    cases hstep : step E sys a with
    | none =>
      rw [hstep] at hrun
      simp at hrun
    | some sys2 =>
      rw [hstep] at hrun hbatch
      simp only [Bool.and_eq_true] at hbatch
      exact ih sys2 final
        (inv_step E st n sys sys2 a hinv hbatch.1 hstep) hrun hbatch.2

/-- C1: single-flight.  For every schedule in which all loadCache calls
are issued before the first in-flight load settles, once every caller has
settled they all hold the same result — that of one sequential
loadCacheImpl call — the file-system work equals that one call's work
(one directory check, at most one stat/read/decode, exactly one of each on
the read path), the module state is that call's state, and the shared
handle is cleared so the next call would start a fresh freshness check. -/
theorem singleFlight (E : Env) (st : LoaderState) (n : Nat)
    (acts : List Action) (final : Sys)
    (hrun : run E (initSys st n) acts = some final)
    (hbatch : batchOK E (initSys st n) acts = true)
    (hdone : final.procs.all isDone = true)
    (hn : 0 < n) :
    final.procs = List.replicate n (.done (loadCacheImpl E st).1)
    ∧ final.loader = (loadCacheImpl E st).2.1
    ∧ final.counts = (loadCacheImpl E st).2.2
    ∧ final.flight = none := by
  obtain ⟨hlen, hphase⟩ :=
    run_inv E st n acts (initSys st n) final (inv_init E st n) hrun hbatch
  rcases hphase with ⟨hf, hld, hc, hall⟩ | ⟨_, _, _, _, hw⟩
    | ⟨_, _, _, _, _, hw⟩ | ⟨_, _, _, _, _, _, hw⟩ | ⟨hf, hld, hc, hp, hwit⟩
  · obtain ⟨p, hpmem⟩ : ∃ p, p ∈ final.procs := by
      cases hpr : final.procs with
      | nil =>
        rw [hpr] at hlen
        simp at hlen
        omega
      | cons q qs =>
        exact ⟨q, List.mem_cons.mpr (Or.inl rfl)⟩
    have hst2 : p = ProcState.start := hall p hpmem
    have h2 := List.all_eq_true.mp hdone p hpmem
    rw [hst2] at h2
    simp [isDone] at h2
  · have h2 := List.all_eq_true.mp hdone _ hw
    simp [isDone] at h2
  · have h2 := List.all_eq_true.mp hdone _ hw
    simp [isDone] at h2
  · have h2 := List.all_eq_true.mp hdone _ hw
    simp [isDone] at h2
  · refine ⟨?_, hld, hc, hf⟩
    refine List.eq_replicate_iff.mpr ⟨hlen, ?_⟩
    intro p hpmem
    rcases hp p hpmem with rfl | rfl
    · have h2 := List.all_eq_true.mp hdone _ hpmem
      simp [isDone] at h2
    · rfl

/-- Witness for C1: two concurrent callers, joined before the access
completes; three flight steps settle both with the decoded state, one
stat, one read, one decode, handle cleared. -/
theorem singleFlight_witness :
    Sys.procs ⟨⟨some stateTwoDocs, 5⟩, none,
        [.done (.ok stateTwoDocs 95), .done (.ok stateTwoDocs 95)],
        ⟨1, 1, 1, 1⟩⟩
      = List.replicate 2 (.done (loadCacheImpl envTwoDocs ⟨none, 0⟩).1)
    ∧ Sys.loader ⟨⟨some stateTwoDocs, 5⟩, none,
        [.done (.ok stateTwoDocs 95), .done (.ok stateTwoDocs 95)],
        ⟨1, 1, 1, 1⟩⟩
      = (loadCacheImpl envTwoDocs ⟨none, 0⟩).2.1
    ∧ Sys.counts ⟨⟨some stateTwoDocs, 5⟩, none,
        [.done (.ok stateTwoDocs 95), .done (.ok stateTwoDocs 95)],
        ⟨1, 1, 1, 1⟩⟩
      = (loadCacheImpl envTwoDocs ⟨none, 0⟩).2.2
    ∧ Sys.flight ⟨⟨some stateTwoDocs, 5⟩, none,
        [.done (.ok stateTwoDocs 95), .done (.ok stateTwoDocs 95)],
        ⟨1, 1, 1, 1⟩⟩
      = none :=
  singleFlight envTwoDocs ⟨none, 0⟩ 2
    [.call 0, .call 1, .flightStep, .flightStep, .flightStep]
    ⟨⟨some stateTwoDocs, 5⟩, none,
     [.done (.ok stateTwoDocs 95), .done (.ok stateTwoDocs 95)],
     ⟨1, 1, 1, 1⟩⟩
    rfl rfl rfl (by omega)

end Granola
